import Mathlib

/-
Verification development for the byte-calc on-chain calculator program
(src/byte-calc/src/lib.rs).

The program is a single stateless Solana entrypoint `process_instruction`:
it borsh-decodes a 17-byte payload into `CalculatorInstruction`
(`operation : u8`, `left : i64`, `right : i64`, little-endian fixed layout),
dispatches on `operation` (0=add, 1=sub, 2=mul, 3=div, 4=mod, 5=pow),
logs trace lines via `msg!`, and returns `Ok(())` or
`Err(ProgramError::InvalidInstructionData)`.  The accounts and program id
arguments are unused.

Machine integers are embedded as `Int`/`Nat` with explicit reduction
modulo 2^64 where the Rust i64 arithmetic can overflow.  The program is
compiled with the release profile, so native i64 addition, subtraction,
multiplication and `pow` wrap on overflow (two's complement); `wrapI64`
models that wraparound.  The one place where Rust traps even in release,
`i64::MIN / -1` (and `i64::MIN % -1`), is outside every claim's scope and
is noted where relevant.
-/

deriving instance DecidableEq for Except

namespace ByteCalc

/-- Model of `solana_program::pubkey::Pubkey` (opaque 32-byte id; its
contents are never inspected by this program). -/
structure Pubkey where
  bytes : List Nat
deriving DecidableEq

/-- Model of `solana_program::account_info::AccountInfo`: the observable
account state (key, lamports, data).  The program never reads or writes
any of it. -/
structure AccountInfo where
  key : Pubkey
  lamports : Nat
  data : List Nat
deriving DecidableEq

/-- Model of `solana_program::program_error::ProgramError` (the non-Custom
variants are nullary; `custom` carries the u32 code, `borshIoError` the
message).  The source program only ever constructs
`ProgramError::InvalidInstructionData`. -/
inductive ProgramError where
  | custom (code : Nat)
  | invalidArgument
  | invalidInstructionData
  | invalidAccountData
  | accountDataTooSmall
  | insufficientFunds
  | incorrectProgramId
  | missingRequiredSignature
  | accountAlreadyInitialized
  | uninitializedAccount
  | notEnoughAccountKeys
  | accountBorrowFailed
  | maxSeedLengthExceeded
  | invalidSeeds
  | borshIoError (message : String)
  | accountNotRentExempt
  | unsupportedSysvar
  | illegalOwner
  | maxAccountsDataAllocationsExceeded
  | invalidRealloc
  | maxInstructionTraceLengthExceeded
  | builtinProgramsMustConsumeComputeUnits
  | invalidAccountOwner
  | arithmeticOverflow
  | immutable
  | incorrectAuthority
deriving DecidableEq

/-- The decoded instruction, from
`struct CalculatorInstruction { operation: u8, left: i64, right: i64 }`.
`operation` is a byte (< 256 for values produced by decode); `left` and
`right` are i64 values in [-2^63, 2^63). -/
structure CalculatorInstruction where
  operation : Nat
  left : Int
  right : Int
deriving DecidableEq

/-- Two's-complement wraparound of an integer into the i64 range
[-9223372036854775808, 9223372036854775808), i.e. reduction mod 2^64.
This is the release-profile behaviour of Rust's native i64 `+`, `-`, `*`
and `pow` on overflow. -/
def wrapI64 (x : Int) : Int :=
  (x + 9223372036854775808) % 18446744073709551616 - 9223372036854775808

/-- Value of a little-endian byte list (borsh integer encoding). -/
def leToNat : List Nat → Nat
  | [] => 0
  | b :: bs => b + 256 * leToNat bs

/-- An i64 read from 8 little-endian bytes, two's complement
(borsh `i64` deserialization). -/
def i64OfLe (bs : List Nat) : Int :=
  let n := leToNat bs
  if n < 9223372036854775808 then (n : Int) else (n : Int) - 18446744073709551616

/-- The 8 little-endian bytes of an i64, two's complement
(borsh `i64` serialization; divisor constants are 256^1 .. 256^7). -/
def i64ToLe (x : Int) : List Nat :=
  let m := (x % 18446744073709551616).toNat
  [m % 256, m / 256 % 256, m / 65536 % 256, m / 16777216 % 256,
   m / 4294967296 % 256, m / 1099511627776 % 256,
   m / 281474976710656 % 256, m / 72057594037927936 % 256]

/-- Borsh decode `CalculatorInstruction::try_from_slice`: one byte
`operation` at offset 0, little-endian `left` at offsets 1-8, little-endian
`right` at offsets 9-16; borsh fails on a short read and on trailing bytes,
so exactly the 17-byte payloads decode. -/
def try_from_slice (data : List Nat) : Option CalculatorInstruction :=
  if data.length = 17 then
    some { operation := data.headD 0
         , left := i64OfLe ((data.drop 1).take 8)
         , right := i64OfLe ((data.drop 9).take 8) }
  else
    none

/-- Borsh encode of a `CalculatorInstruction` (derived `BorshSerialize`):
the operation byte followed by the two i64 fields, little-endian. -/
def serialize (i : CalculatorInstruction) : List Nat :=
  i.operation :: i64ToLe i.left ++ i64ToLe i.right

/-- The `match instruction.operation` block of `process_instruction`:
result value (or error) together with the `msg!` log lines it emits.
Division uses Rust's truncating `/` (`Int.tdiv`), modulus Rust's `%`
(`Int.tmod`, sign of the dividend); `right as u32` in the power case is
the truncating Rust cast, i.e. the low 32 bits.  `wrapI64` models the
release-profile wraparound of i64 arithmetic; the sole trapping case
(`i64::MIN / -1`, likewise `%`) lies outside the claims treated below. -/
def evaluate (instruction : CalculatorInstruction) : Except ProgramError Int × List String :=
  if instruction.operation = 0 then
    (Except.ok (wrapI64 (instruction.left + instruction.right)),
     ["Addition: " ++ toString instruction.left ++ " + " ++ toString instruction.right])
  else if instruction.operation = 1 then
    (Except.ok (wrapI64 (instruction.left - instruction.right)),
     ["Subtraction: " ++ toString instruction.left ++ " - " ++ toString instruction.right])
  else if instruction.operation = 2 then
    (Except.ok (wrapI64 (instruction.left * instruction.right)),
     ["Multiplication: " ++ toString instruction.left ++ " * " ++ toString instruction.right])
  else if instruction.operation = 3 then
    if instruction.right ≠ 0 then
      (Except.ok (wrapI64 (Int.tdiv instruction.left instruction.right)),
       ["Division: " ++ toString instruction.left ++ " / " ++ toString instruction.right])
    else
      (Except.error ProgramError.invalidInstructionData,
       ["Division: " ++ toString instruction.left ++ " / " ++ toString instruction.right,
        "Division by zero is not allowed"])
  else if instruction.operation = 4 then
    if instruction.right ≠ 0 then
      (Except.ok (wrapI64 (Int.tmod instruction.left instruction.right)),
       ["Modulus: " ++ toString instruction.left ++ " % " ++ toString instruction.right])
    else
      (Except.error ProgramError.invalidInstructionData,
       ["Modulus: " ++ toString instruction.left ++ " % " ++ toString instruction.right,
        "Modulus by zero is not allowed"])
  else if instruction.operation = 5 then
    if 0 ≤ instruction.right then
      (Except.ok (wrapI64 (instruction.left ^ (instruction.right.toNat % 4294967296))),
       ["Power: " ++ toString instruction.left ++ " ^ " ++ toString instruction.right])
    else
      (Except.error ProgramError.invalidInstructionData,
       ["Power: " ++ toString instruction.left ++ " ^ " ++ toString instruction.right,
        "Negative exponent is not allowed"])
  else
    (Except.error ProgramError.invalidInstructionData,
     ["Unknown operation: " ++ toString instruction.operation])

/-- Observable outcome of one `process_instruction` call: the
`ProgramResult` (`Result<(), ProgramError>`), the `msg!` log lines, and
the accounts after the call (returned to make account non-mutation a
provable statement; the source never touches them). -/
structure ProcessOutcome where
  result : Except ProgramError Unit
  logs : List String
  accounts : List AccountInfo

/-- The entrypoint `process_instruction(_program_id, _accounts,
instruction_data)`: borsh decode (decode failure is mapped by `map_err` to
`ProgramError::InvalidInstructionData`), then the dispatch block, then the
final `msg!("Result = {}")` on success. -/
def process_instruction (programId : Pubkey) (accounts : List AccountInfo)
    (instruction_data : List Nat) : ProcessOutcome :=
  match try_from_slice instruction_data with
  | none => ⟨Except.error ProgramError.invalidInstructionData, [], accounts⟩
  | some instruction =>
    match evaluate instruction with
    | (Except.ok result, logs) =>
        ⟨Except.ok (), logs ++ ["Result = " ++ toString result], accounts⟩
    | (Except.error e, logs) => ⟨Except.error e, logs, accounts⟩

/-- Wraparound is the identity on values already in the i64 range. -/
lemma wrapI64_id_of_range (x : Int) (h1 : -9223372036854775808 ≤ x)
    (h2 : x < 9223372036854775808) : wrapI64 x = x := by
  simp only [wrapI64]
  omega

/-- Magnitude of the truncating remainder: |a tmod b| = |a| % |b|. -/
lemma natAbs_tmod_eq (a b : Int) : (a.tmod b).natAbs = a.natAbs % b.natAbs := by
  cases a with
  | ofNat m =>
    cases b with
    | ofNat n =>
      show (Int.ofNat (m % n)).natAbs = m % n
      exact Int.natAbs_ofNat _
    | negSucc n =>
      show (Int.ofNat (m % (n + 1))).natAbs = m % (n + 1)
      exact Int.natAbs_ofNat _
  | negSucc m =>
    cases b with
    | ofNat n =>
      show (-Int.ofNat ((m + 1) % n)).natAbs = (m + 1) % n
      rw [Int.natAbs_neg]
      exact Int.natAbs_ofNat _
    | negSucc n =>
      show (-Int.ofNat ((m + 1) % (n + 1))).natAbs = (m + 1) % (n + 1)
      rw [Int.natAbs_neg]
      exact Int.natAbs_ofNat _

/-- The truncating remainder of a nonpositive dividend is nonpositive
(its sign follows the dividend). -/
lemma tmod_nonpos_of_nonpos (a b : Int) (h : a ≤ 0) : a.tmod b ≤ 0 := by
  cases a with
  | ofNat m =>
    have hm : m = 0 := by
      rw [Int.ofNat_eq_coe] at h
      omega
    subst hm
    cases b with
    | ofNat n =>
      show Int.ofNat (0 % n) ≤ 0
      simp
    | negSucc n =>
      show Int.ofNat (0 % (n + 1)) ≤ 0
      simp
  | negSucc m =>
    cases b with
    | ofNat n =>
      show -Int.ofNat ((m + 1) % n) ≤ 0
      have hk : (0 : Int) ≤ Int.ofNat ((m + 1) % n) := by
        rw [Int.ofNat_eq_coe]
        exact Int.natCast_nonneg _
      omega
    | negSucc n =>
      show -Int.ofNat ((m + 1) % (n + 1)) ≤ 0
      have hk : (0 : Int) ≤ Int.ofNat ((m + 1) % (n + 1)) := by
        rw [Int.ofNat_eq_coe]
        exact Int.natCast_nonneg _
      omega

/-- Truncating division of an in-range i64 dividend stays in the i64
range, except at the trapping input MIN / -1 (excluded by hypothesis). -/
lemma tdiv_in_i64_range (l r : Int)
    (hl1 : -9223372036854775808 ≤ l) (hl2 : l < 9223372036854775808)
    (hr0 : r ≠ 0) (hov : ¬(l = -9223372036854775808 ∧ r = -1)) :
    -9223372036854775808 ≤ Int.tdiv l r ∧ Int.tdiv l r < 9223372036854775808 := by
  have hA : (Int.tdiv l r).natAbs = l.natAbs / r.natAbs := Int.natAbs_tdiv l r
  obtain ⟨q, hq⟩ : ∃ q, l.natAbs / r.natAbs = q := ⟨_, rfl⟩
  rw [hq] at hA
  have hds : q ≤ l.natAbs := by
    rw [← hq]
    exact Nat.div_le_self _ _
  by_cases htop : Int.tdiv l r = 9223372036854775808
  · exfalso
    have hqv : q = 9223372036854775808 := by omega
    have hls : l.natAbs = 9223372036854775808 := by omega
    have hml := Nat.div_mul_le_self l.natAbs r.natAbs
    rw [hq, hqv, hls] at hml
    have hr1 : r.natAbs = 1 := by omega
    have hcases : r = 1 ∨ r = -1 := by omega
    rcases hcases with h1 | h1
    · rw [h1, Int.tdiv_one] at htop
      omega
    · exact hov ⟨by omega, h1⟩
  · omega

/-- The truncating remainder of an in-range i64 dividend stays in the i64
range. -/
lemma tmod_in_i64_range (l r : Int)
    (hl1 : -9223372036854775808 ≤ l) (hl2 : l < 9223372036854775808) :
    -9223372036854775808 ≤ Int.tmod l r ∧ Int.tmod l r < 9223372036854775808 := by
  have hN := natAbs_tmod_eq l r
  obtain ⟨m, hm⟩ : ∃ m, l.natAbs % r.natAbs = m := ⟨_, rfl⟩
  rw [hm] at hN
  have hle : m ≤ l.natAbs := by
    rw [← hm]
    exact Nat.mod_le _ _
  rcases le_or_lt 0 l with hc | hc
  · have hge := Int.tmod_nonneg r hc
    omega
  · have hle2 := tmod_nonpos_of_nonpos l r (le_of_lt hc)
    omega

/-- Wraparound of any multiple of 2^64 is 0. -/
lemma wrapI64_of_mul_2_64 (x c : Int) (h : x = 18446744073709551616 * c) :
    wrapI64 x = 0 := by
  subst h
  simp only [wrapI64]
  omega

/-- Every branch of the dispatch either produces a value or the single
error the program ever constructs, `ProgramError::InvalidInstructionData`. -/
lemma evaluate_ok_or_invalid (i : CalculatorInstruction) :
    (∃ v, (evaluate i).1 = Except.ok v) ∨
    (evaluate i).1 = Except.error ProgramError.invalidInstructionData := by
  unfold evaluate
  split_ifs <;> first
    | exact Or.inl ⟨_, rfl⟩
    | exact Or.inr rfl

/-- Claim C1: for operation selectors 0, 1 and 2 and any operands,
evaluation succeeds and the computed result is left+right, left-right and
left*right respectively, under 64-bit wrapping (mod 2^64) arithmetic. -/
theorem evaluate_add_sub_mul_wrap (l r : Int) :
    (evaluate ⟨0, l, r⟩).1 = Except.ok (wrapI64 (l + r)) ∧
    (evaluate ⟨1, l, r⟩).1 = Except.ok (wrapI64 (l - r)) ∧
    (evaluate ⟨2, l, r⟩).1 = Except.ok (wrapI64 (l * r)) :=
  ⟨rfl, rfl, rfl⟩

/-- Claim C2 counterexample: at left = 2, right = 2^32 the code returns 1
(the exponent is truncated to the low 32 bits of right, here 0), while
left raised to the power right under repeated-multiplication i64 semantics
is 2^(2^32), whose 64-bit wraparound is 0 and which itself is not 1.  So
the result does not equal left^right over the full non-negative i64 range
of right. -/
theorem evaluate_pow_exponent_truncation_cex :
    (evaluate ⟨5, 2, 4294967296⟩).1 = Except.ok 1 ∧
    wrapI64 ((2 : Int) ^ (4294967296 : Nat)) = 0 ∧
    (2 : Int) ^ (4294967296 : Nat) ≠ 1 := by
  refine ⟨by decide, ?_, ?_⟩
  · have h64 : (18446744073709551616 : Int) = 2 ^ (64 : Nat) := by norm_num
    have hdvd : (18446744073709551616 : Int) ∣ 2 ^ (4294967296 : Nat) := by
      rw [h64]
      exact pow_dvd_pow 2 (by norm_num)
    obtain ⟨c, hc⟩ := hdvd
    exact wrapI64_of_mul_2_64 _ c hc
  · have h1 : (1 : Int) < 2 ^ (4294967296 : Nat) := one_lt_pow (by norm_num) (by norm_num)
    exact ne_of_gt h1

/-- Claim C2 (amended): for operation 5 and an exponent right with
0 ≤ right < 2^32 (i.e. right representable in the u32 the code casts to),
evaluation succeeds and the result is left^right under wrapping i64
repeated-multiplication semantics; for larger right the code instead uses
the exponent right mod 2^32. -/
theorem evaluate_pow_in_u32_range (l r : Int) (h0 : 0 ≤ r) (h1 : r < 4294967296) :
    (evaluate ⟨5, l, r⟩).1 = Except.ok (wrapI64 (l ^ r.toNat)) := by
  have hm : r.toNat % 4294967296 = r.toNat := Nat.mod_eq_of_lt (by omega)
  simp [evaluate, h0, hm]

/-- Witness for C2's amended theorem at the spec's own scenario
2^10 = 1024. -/
theorem evaluate_pow_two_ten_witness :
    (evaluate ⟨5, 2, 10⟩).1 = Except.ok 1024 := by
  have h := evaluate_pow_in_u32_range 2 10 (by norm_num) (by norm_num)
  rw [h]
  decide

/-- Claim C3: for selectors 3 (Divide) and 4 (Modulo) with right = 0 and
any left, evaluation fails and no result is produced; the program signals
the division-by-zero condition with its error value
`ProgramError::InvalidInstructionData`. -/
theorem evaluate_divide_modulo_by_zero_fails (l : Int) :
    (evaluate ⟨3, l, 0⟩).1 = Except.error ProgramError.invalidInstructionData ∧
    (evaluate ⟨4, l, 0⟩).1 = Except.error ProgramError.invalidInstructionData :=
  ⟨rfl, rfl⟩

/-- Claim C4: for selector 5 (Power) with right < 0 and any left,
evaluation fails and no result is produced; the program signals the
negative-exponent condition with its error value
`ProgramError::InvalidInstructionData`. -/
theorem evaluate_pow_negative_exponent_fails (l r : Int) (h : r < 0) :
    (evaluate ⟨5, l, r⟩).1 = Except.error ProgramError.invalidInstructionData := by
  have h5 : ¬ (0 ≤ r) := not_le.mpr h
  simp [evaluate, h5]

/-- Witness for C4 at the spec's scenario operation 5, left 3, right -1. -/
theorem evaluate_pow_negative_exponent_witness :
    (evaluate ⟨5, 3, -1⟩).1 = Except.error ProgramError.invalidInstructionData :=
  evaluate_pow_negative_exponent_fails 3 (-1) (by norm_num)

/-- Claim C5: for any operation selector outside 0..5 and any operands,
evaluation fails with the program's error value
`ProgramError::InvalidInstructionData` (the unknown-operation condition). -/
theorem evaluate_unknown_selector_fails (o : Nat) (l r : Int) (h : 5 < o) :
    (evaluate ⟨o, l, r⟩).1 = Except.error ProgramError.invalidInstructionData := by
  have h0 : o ≠ 0 := by omega
  have h1 : o ≠ 1 := by omega
  have h2 : o ≠ 2 := by omega
  have h3 : o ≠ 3 := by omega
  have h4 : o ≠ 4 := by omega
  have h5 : o ≠ 5 := by omega
  simp [evaluate, h0, h1, h2, h3, h4, h5]

/-- Witness for C5 at the spec's scenario operation 9, left 1, right 1. -/
theorem evaluate_unknown_selector_witness :
    (evaluate ⟨9, 1, 1⟩).1 = Except.error ProgramError.invalidInstructionData :=
  evaluate_unknown_selector_fails 9 1 1 (by norm_num)

/-- Claim C6 counterexample: four concrete calls, one per error condition
of the taxonomy (division by zero, unknown operation, negative exponent,
decode failure on a 2-byte payload), all return the very same error value
`ProgramError::InvalidInstructionData`, so the caller cannot tell the four
conditions apart by the returned error value. -/
theorem process_error_values_not_distinct_cex :
    (process_instruction (Pubkey.mk []) []
        [3, 10, 0, 0, 0, 0, 0, 0, 0, 0, 0, 0, 0, 0, 0, 0, 0]).result
      = Except.error ProgramError.invalidInstructionData ∧
    (process_instruction (Pubkey.mk []) []
        [9, 1, 0, 0, 0, 0, 0, 0, 0, 1, 0, 0, 0, 0, 0, 0, 0]).result
      = (process_instruction (Pubkey.mk []) []
        [3, 10, 0, 0, 0, 0, 0, 0, 0, 0, 0, 0, 0, 0, 0, 0, 0]).result ∧
    (process_instruction (Pubkey.mk []) []
        [5, 3, 0, 0, 0, 0, 0, 0, 0, 255, 255, 255, 255, 255, 255, 255, 255]).result
      = (process_instruction (Pubkey.mk []) []
        [3, 10, 0, 0, 0, 0, 0, 0, 0, 0, 0, 0, 0, 0, 0, 0, 0]).result ∧
    (process_instruction (Pubkey.mk []) [] [0, 1]).result
      = (process_instruction (Pubkey.mk []) []
        [3, 10, 0, 0, 0, 0, 0, 0, 0, 0, 0, 0, 0, 0, 0, 0, 0]).result :=
  ⟨rfl, rfl, rfl, rfl⟩

/-- Claim C6 (amended): every failure of the evaluator is returned to the
caller as a structured `ProgramError`, but every one of the four error
conditions (decode failure, unknown operation, division by zero, negative
exponent) maps to the single value `ProgramError::InvalidInstructionData`;
a call either succeeds or returns exactly that error, so the error
conditions are not distinguishable by the returned error value. -/
theorem process_error_always_invalid_instruction_data (p : Pubkey)
    (a : List AccountInfo) (d : List Nat) :
    (process_instruction p a d).result = Except.ok () ∨
    (process_instruction p a d).result
      = Except.error ProgramError.invalidInstructionData := by
  rcases htf : try_from_slice d with - | i
  · right
    simp [process_instruction, htf]
  · rcases he : evaluate i with ⟨res, lg⟩
    rcases res with e | v
    · right
      have h1 := evaluate_ok_or_invalid i
      rw [he] at h1
      rcases h1 with ⟨v, hv⟩ | hv
      · exact absurd hv (by simp)
      · simp only at hv
        rw [hv] at he
        simp [process_instruction, htf, he]
    · left
      simp [process_instruction, htf, he]

/-- Claim C7: for selector 3 with right nonzero the result is the quotient
truncated toward zero (Lean's `Int.tdiv`), and for selector 4 the
truncating remainder (`Int.tmod`), for all i64 operands except the single
trapping overflow input MIN / -1.  The extra conjuncts pin the semantics:
the division identity right * quotient + remainder = left, the remainder
bound |remainder| < |right|, and that the remainder's sign follows left. -/
theorem evaluate_divide_modulo_truncating (l r : Int)
    (hl1 : -9223372036854775808 ≤ l) (hl2 : l < 9223372036854775808)
    (hr1 : -9223372036854775808 ≤ r) (hr2 : r < 9223372036854775808)
    (hr0 : r ≠ 0) (hov : ¬(l = -9223372036854775808 ∧ r = -1)) :
    (evaluate ⟨3, l, r⟩).1 = Except.ok (Int.tdiv l r) ∧
    (evaluate ⟨4, l, r⟩).1 = Except.ok (Int.tmod l r) ∧
    r * Int.tdiv l r + Int.tmod l r = l ∧
    (Int.tmod l r).natAbs < r.natAbs ∧
    (0 ≤ l → 0 ≤ Int.tmod l r) ∧
    (l ≤ 0 → Int.tmod l r ≤ 0) := by
  obtain ⟨hd1, hd2⟩ := tdiv_in_i64_range l r hl1 hl2 hr0 hov
  obtain ⟨hm1, hm2⟩ := tmod_in_i64_range l r hl1 hl2
  refine ⟨?_, ?_, Int.tdiv_add_tmod l r, ?_,
    fun h => Int.tmod_nonneg r h, fun h => tmod_nonpos_of_nonpos l r h⟩
  · simp [evaluate, hr0, wrapI64_id_of_range _ hd1 hd2]
  · simp [evaluate, hr0, wrapI64_id_of_range _ hm1 hm2]
  · rw [natAbs_tmod_eq]
    exact Nat.mod_lt _ (by omega)

/-- Witness for C7 at left -7, right 2: quotient -3 (truncated toward
zero, not the floor -4) and remainder -1 (sign follows the dividend). -/
theorem evaluate_divide_modulo_truncating_witness :
    (evaluate ⟨3, -7, 2⟩).1 = Except.ok (-3) ∧
    (evaluate ⟨4, -7, 2⟩).1 = Except.ok (-1) := by
  obtain ⟨h1, h2, -⟩ := evaluate_divide_modulo_truncating (-7) 2
    (by norm_num) (by norm_num) (by norm_num) (by norm_num) (by norm_num) (by omega)
  constructor
  · rw [h1]
    decide
  · rw [h2]
    decide

/-- A 17-byte payload whose tail splits into two 8-byte halves decodes to
the operation byte and the two little-endian i64 fields. -/
lemma try_from_slice_of_parts (o : Nat) (A B : List Nat)
    (hA : A.length = 8) (hB : B.length = 8) :
    try_from_slice (o :: A ++ B) = some ⟨o, i64OfLe A, i64OfLe B⟩ := by
  unfold try_from_slice
  rw [if_pos (by simp [hA, hB])]
  have h2 : ((o :: A ++ B).drop 1).take 8 = A := by
    rw [show (o :: A ++ B).drop 1 = A ++ B from rfl, ← hA, List.take_left]
  have h3 : ((o :: A ++ B).drop 9).take 8 = B := by
    rw [show (o :: A ++ B).drop 9 = (A ++ B).drop 8 from rfl, ← hA,
      List.drop_left, hA, ← hB, List.take_length]
  rw [h2, h3]
  rfl

/-- The little-endian encoding of an i64 is 8 bytes long. -/
lemma i64ToLe_length (x : Int) : (i64ToLe x).length = 8 := rfl

/-- Decoding the 8 little-endian bytes of an in-range i64 gives it back. -/
lemma i64OfLe_i64ToLe (x : Int) (h1 : -9223372036854775808 ≤ x)
    (h2 : x < 9223372036854775808) : i64OfLe (i64ToLe x) = x := by
  simp only [i64ToLe, i64OfLe, leToNat]
  omega

/-- Claim C8: decode succeeds exactly on 17-byte payloads.  A payload of
any other length is rejected (and `process_instruction` then fails with
the error the program uses for decode failure,
`ProgramError::InvalidInstructionData`), while every 17-byte payload
decodes to the little-endian fixed layout: the operation byte at offset 0,
`left` from bytes 1-8, `right` from bytes 9-16. -/
theorem decode_17_byte_layout (data : List Nat) (p : Pubkey) (a : List AccountInfo)
    (b0 b1 b2 b3 b4 b5 b6 b7 b8 b9 b10 b11 b12 b13 b14 b15 b16 : Nat) :
    (data.length ≠ 17 →
      try_from_slice data = none ∧
      (process_instruction p a data).result
        = Except.error ProgramError.invalidInstructionData) ∧
    try_from_slice [b0, b1, b2, b3, b4, b5, b6, b7, b8, b9, b10, b11, b12, b13, b14, b15, b16]
      = some ⟨b0, i64OfLe [b1, b2, b3, b4, b5, b6, b7, b8],
              i64OfLe [b9, b10, b11, b12, b13, b14, b15, b16]⟩ := by
  constructor
  · intro h
    have hn : try_from_slice data = none := by
      unfold try_from_slice
      rw [if_neg h]
    exact ⟨hn, by simp [process_instruction, hn]⟩
  · rfl

/-- Witness for C8: a 2-byte payload is rejected by decode and by the
entrypoint. -/
theorem decode_17_byte_layout_witness :
    try_from_slice [0, 1] = none ∧
    (process_instruction (Pubkey.mk []) [] [0, 1]).result
      = Except.error ProgramError.invalidInstructionData :=
  (decode_17_byte_layout [0, 1] (Pubkey.mk []) []
    0 0 0 0 0 0 0 0 0 0 0 0 0 0 0 0 0).1 (by decide)

/-- Claim C9: encoding any instruction (u8 operation, i64 operands) with
the borsh wire format and decoding the resulting 17-byte payload yields
the identical instruction. -/
theorem serialize_decode_roundtrip (i : CalculatorInstruction)
    (hop : i.operation < 256)
    (hl1 : -9223372036854775808 ≤ i.left) (hl2 : i.left < 9223372036854775808)
    (hr1 : -9223372036854775808 ≤ i.right) (hr2 : i.right < 9223372036854775808) :
    try_from_slice (serialize i) = some i := by
  obtain ⟨o, l, r⟩ := i
  rw [show serialize ⟨o, l, r⟩ = o :: i64ToLe l ++ i64ToLe r from rfl,
    try_from_slice_of_parts o _ _ (i64ToLe_length l) (i64ToLe_length r),
    i64OfLe_i64ToLe l hl1 hl2, i64OfLe_i64ToLe r hr1 hr2]

/-- Witness for C9 at the spec's first scenario (operation 0, left 10,
right 5). -/
theorem serialize_decode_roundtrip_witness :
    try_from_slice (serialize ⟨0, 10, 5⟩) = some ⟨0, 10, 5⟩ :=
  serialize_decode_roundtrip ⟨0, 10, 5⟩ (by decide) (by decide) (by decide)
    (by decide) (by decide)

/-- Claim C10: the outcome of `process_instruction` (its result and its
log lines) depends only on the instruction bytes: two calls with the same
`instruction_data` but different program ids and account lists return
identical results and logs, and the accounts of each call are returned
untouched (no account is read or written). -/
theorem process_depends_only_on_instruction_data (p1 p2 : Pubkey)
    (a1 a2 : List AccountInfo) (d : List Nat) :
    (process_instruction p1 a1 d).result = (process_instruction p2 a2 d).result ∧
    (process_instruction p1 a1 d).logs = (process_instruction p2 a2 d).logs ∧
    (process_instruction p1 a1 d).accounts = a1 ∧
    (process_instruction p2 a2 d).accounts = a2 := by
  rcases htf : try_from_slice d with - | i
  · refine ⟨?_, ?_, ?_, ?_⟩ <;> simp [process_instruction, htf]
  · rcases he : evaluate i with ⟨res, lg⟩
    rcases res with e | v
    · refine ⟨?_, ?_, ?_, ?_⟩ <;> simp [process_instruction, htf, he]
    · refine ⟨?_, ?_, ?_, ?_⟩ <;> simp [process_instruction, htf, he]

end ByteCalc
